import Mathlib

/-!
Shallow embedding of `src/streamlit_app.py` (global asset performance
comparison dashboard).

Modelling conventions:
* A pandas price series (date-indexed adjusted-close prices) is a list of
  `(date, price)` pairs; dates are integers, prices exact rationals.
* `series.iloc[0]` on an empty series raises `IndexError`; functions that can
  raise are modelled with `Option` (`none` = raised exception).
* `pd.concat([s1, s2], axis=1)` aligns the two series on the sorted union of
  their date indexes, with a missing value (`NaN`) where a date is absent from
  one side; `.dropna()` keeps exactly the rows where both values are present.
* `DataFrame.corr().iloc[0, 1]` is the Pearson coefficient of the two columns;
  pandas yields `NaN` (modelled `none`) when either column has zero variance,
  which subsumes the cases of fewer than two rows.
-/

abbrev Date := Int

abbrev Series := List (Date × ℚ)

/-- The date index of a series (`series.index`). -/
def seriesDates (s : Series) : List Date := s.map Prod.fst

/-- Value of the series at date `d`, when present (`series.loc[d]`). -/
def seriesLookup (s : Series) (d : Date) : Option ℚ :=
  (s.find? (fun p => p.1 == d)).map Prod.snd

/-- The data-model invariant of a fetched price series: strictly ascending
dates (one row per trading day), phrased executably. -/
def datesSorted : List Date → Bool
  | [] => true
  | [_] => true
  | a :: b :: t => a < b && datesSorted (b :: t)

/-- Model of `normalize_data(series)`: `series / series.iloc[0] * 100 - 100`.
Here `iloc[0]` raises on an empty series, modelled as `none`. -/
def normalize_data (s : Series) : Option Series :=
  match s with
  | [] => none
  | p :: _ => some (s.map (fun q => (q.1, q.2 / p.2 * 100 - 100)))

/-- Modelled from the spec: `scale(s, k)` multiplies every price of the series
by the constant `k` (used only to state the rescaling-invariance property). -/
def scaleSeries (s : Series) (k : ℚ) : Series :=
  s.map (fun p => (p.1, k * p.2))

/-- Model of `fetch_historical_data(ticker, start_date, end_date)`,
instrumented with the number of provider round-trips it performs.  The body is
`try: data = yf.download(ticker, start, end); return data["Adj Close"]
except: st.error(...); return None` — the download is attempted
unconditionally, and any provider failure becomes `None`.  `download`
abstracts `yf.download`; the second component counts its invocations. -/
def fetch_historical_data (download : String → Date → Date → Except String Series)
    (ticker : String) (start_date end_date : Date) : Option Series × Nat :=
  match download ticker start_date end_date with
  | Except.ok data => (some data, 1)
  | Except.error _ => (none, 1)

section Pearson

/-- The quantity `n·Σx² − (Σx)²`, the (n²-scaled) variance numerator that the
pandas Pearson computation divides by; zero exactly when the pandas
correlation is `NaN` because a column is constant or has fewer than two
rows. -/
def listVar (l : List ℚ) : ℚ :=
  (l.length : ℚ) * (l.map (fun x => x * x)).sum - l.sum * l.sum

/-- The quantity `n·Σxy − Σx·Σy`, the matching covariance numerator. -/
def listCov (p : List (ℚ × ℚ)) : ℚ :=
  (p.length : ℚ) * (p.map (fun q => q.1 * q.2)).sum -
    (p.map Prod.fst).sum * (p.map Prod.snd).sum

/-- Pearson coefficient of a list of aligned value pairs, as
`DataFrame.corr().iloc[0, 1]` computes it: `NaN` (here `none`) when either
variance term of a column is zero, otherwise covariance over the product of
standard deviations. -/
noncomputable def pearsonOption (p : List (ℚ × ℚ)) : Option ℝ :=
  if listVar (p.map Prod.fst) = 0 ∨ listVar (p.map Prod.snd) = 0 then none
  else some ((listCov p : ℝ) /
    (Real.sqrt ((listVar (p.map Prod.fst) : ℚ) : ℝ) *
      Real.sqrt ((listVar (p.map Prod.snd) : ℚ) : ℝ)))

end Pearson

/-- The sorted union of the two date indexes: the row index of
`pd.concat([series1, series2], axis=1)`. -/
def mergedDates (s1 s2 : Series) : List Date :=
  List.insertionSort (· ≤ ·) ((seriesDates s1 ++ seriesDates s2).dedup)

/-- One row of the concatenated frame at date `d`: the pair of values when
both series have one (`NaN` rows are dropped by `.dropna()`, hence `none`). -/
def alignRow (s1 s2 : Series) (d : Date) : Option (ℚ × ℚ) :=
  match seriesLookup s1 d, seriesLookup s2 d with
  | some x, some y => some (x, y)
  | _, _ => none

/-- The rows of `pd.concat([series1, series2], axis=1).dropna()`. -/
def alignedPairs (s1 s2 : Series) : List (ℚ × ℚ) :=
  (mergedDates s1 s2).filterMap (alignRow s1 s2)

/-- Model of `calculate_correlation(series1, series2)`:
`pd.concat([series1, series2], axis=1).dropna()` then `.corr().iloc[0, 1]`. -/
noncomputable def calculate_correlation (series1 series2 : Series) : Option ℝ :=
  pearsonOption (alignedPairs series1 series2)

/-- Outcome of one run of the rendering part of `main` (lines 94–120). -/
inductive RenderOutcome where
  | rendered (corr : Option ℝ) (ret1 ret2 : ℚ)
  | nothingRendered
  | crashed

/-- The data-processing part of `main`, given the two fetch results:
`if data1 is not None and data2 is not None:` normalize both, correlate,
plot, and show the correlation metric and the two total-return metrics
(`norm_data.iloc[-1]`).  An exception escaping `normalize_data` (empty
series) is an uncaught crash; when the guard fails nothing further is
rendered. -/
noncomputable def mainRender (data1 data2 : Option Series) : RenderOutcome :=
  match data1, data2 with
  | some d1, some d2 =>
    match normalize_data d1, normalize_data d2 with
    | some n1, some n2 =>
      match n1.getLast?, n2.getLast? with
      | some l1, some l2 =>
        RenderOutcome.rendered (calculate_correlation n1 n2) l1.2 l2.2
      | _, _ => RenderOutcome.crashed
    | _, _ => RenderOutcome.crashed
  | _, _ => RenderOutcome.nothingRendered

/-- Spec-side description of the alignment: restrict to the dates present in
both series (inner join, dropping any date missing from either side), pairing
each value of `s1` with the value of `s2` at the same date. -/
def innerJoin (s1 s2 : Series) : List (ℚ × ℚ) :=
  s1.filterMap (fun p => (seriesLookup s2 p.1).map (fun y => (p.2, y)))

/-- Spec-side description of the Pearson correlation coefficient of a list of
value pairs, in its textbook mean-centered form: `Σ(x−x̄)(y−ȳ)` over
`√Σ(x−x̄)² · √Σ(y−ȳ)²`, undefined when a denominator vanishes. -/
noncomputable def pearsonSpec (p : List (ℚ × ℚ)) : Option ℝ :=
  let xs := p.map Prod.fst
  let ys := p.map Prod.snd
  let xbar := xs.sum / xs.length
  let ybar := ys.sum / ys.length
  let sxx := (xs.map (fun x => (x - xbar) * (x - xbar))).sum
  let syy := (ys.map (fun y => (y - ybar) * (y - ybar))).sum
  let sxy := (p.map (fun q => (q.1 - xbar) * (q.2 - ybar))).sum
  if sxx = 0 ∨ syy = 0 then none
  else some ((sxy : ℝ) / (Real.sqrt (sxx : ℝ) * Real.sqrt (syy : ℝ)))

/-! ### Sum identities for the variance and covariance numerators -/

lemma sum_map_sq_sub (l : List ℚ) (c : ℚ) :
    (l.map (fun x => (x - c) * (x - c))).sum =
      (l.map (fun x => x * x)).sum - 2 * c * l.sum + (l.length : ℚ) * (c * c) := by
  induction l with
  | nil => simp
  | cons a t ih =>
    simp only [List.map_cons, List.sum_cons, List.length_cons, ih]
    push_cast
    ring

lemma sum_map_mul_sub (p : List (ℚ × ℚ)) (c d : ℚ) :
    (p.map (fun q => (q.1 - c) * (q.2 - d))).sum =
      (p.map (fun q => q.1 * q.2)).sum - c * (p.map Prod.snd).sum -
        d * (p.map Prod.fst).sum + (p.length : ℚ) * (c * d) := by
  induction p with
  | nil => simp
  | cons a t ih =>
    simp only [List.map_cons, List.sum_cons, List.length_cons, ih]
    push_cast
    ring

lemma sum_map_sq_nonneg (l : List ℚ) (c : ℚ) :
    0 ≤ (l.map (fun x => (x - c) * (x - c))).sum := by
  apply List.sum_nonneg
  intro x hx
  obtain ⟨a, _, rfl⟩ := List.mem_map.mp hx
  exact mul_self_nonneg _

lemma sum_map_pos (l : List ℚ) (f : ℚ → ℚ) (hnn : ∀ x ∈ l, 0 ≤ f x)
    (x : ℚ) (hx : x ∈ l) (hfx : 0 < f x) : 0 < (l.map f).sum := by
  induction l with
  | nil => simp at hx
  | cons a t ih =>
    simp only [List.map_cons, List.sum_cons]
    rcases List.mem_cons.mp hx with rfl | hxt
    · exact add_pos_of_pos_of_nonneg hfx
        (List.sum_nonneg (by
          intro y hy
          obtain ⟨b, hb, rfl⟩ := List.mem_map.mp hy
          exact hnn b (List.mem_cons_of_mem _ hb)))
    · exact add_pos_of_nonneg_of_pos (hnn a (List.mem_cons_self a t))
        (ih (fun y hy => hnn y (List.mem_cons_of_mem _ hy)) hxt)

lemma listVar_eq_centered (l : List ℚ) (h : l ≠ []) :
    listVar l =
      (l.length : ℚ) *
        (l.map (fun x => (x - l.sum / l.length) * (x - l.sum / l.length))).sum := by
  have hn : (l.length : ℚ) ≠ 0 := by
    simpa using (List.length_pos.mpr h).ne'
  rw [sum_map_sq_sub, listVar]
  field_simp
  ring

lemma listVar_nonneg (l : List ℚ) : 0 ≤ listVar l := by
  rcases eq_or_ne l [] with rfl | h
  · simp [listVar]
  · rw [listVar_eq_centered l h]
    exact mul_nonneg (Nat.cast_nonneg _) (sum_map_sq_nonneg _ _)

lemma listVar_pos (l : List ℚ) (x y : ℚ) (hx : x ∈ l) (hy : y ∈ l)
    (hxy : x ≠ y) : 0 < listVar l := by
  have h : l ≠ [] := by rintro rfl; simp at hx
  rw [listVar_eq_centered l h]
  have hn : (0 : ℚ) < l.length := by
    exact_mod_cast List.length_pos.mpr h
  obtain ⟨z, hz, hzc⟩ : ∃ z ∈ l, z ≠ l.sum / l.length := by
    by_cases hxc : x = l.sum / l.length
    · exact ⟨y, hy, fun hyc => hxy (hxc.trans hyc.symm)⟩
    · exact ⟨x, hx, hxc⟩
  exact mul_pos hn
    (sum_map_pos l _ (fun t _ => mul_self_nonneg _) z hz
      (mul_self_pos.mpr (sub_ne_zero.mpr hzc)))

lemma sum_map_affine (l : List ℚ) (a b : ℚ) :
    (l.map (fun x => a * x + b)).sum = a * l.sum + (l.length : ℚ) * b := by
  induction l with
  | nil => simp
  | cons c t ih =>
    simp only [List.map_cons, List.sum_cons, List.length_cons, ih]
    push_cast
    ring

lemma sum_map_affine_sq (l : List ℚ) (a b : ℚ) :
    (l.map (fun x => (a * x + b) * (a * x + b))).sum =
      a ^ 2 * (l.map (fun x => x * x)).sum + 2 * a * b * l.sum +
        (l.length : ℚ) * (b * b) := by
  induction l with
  | nil => simp
  | cons c t ih =>
    simp only [List.map_cons, List.sum_cons, List.length_cons, ih]
    push_cast
    ring

lemma sum_map_affine_mul (p : List (ℚ × ℚ)) (a b c d : ℚ) :
    (p.map (fun q => (a * q.1 + b) * (c * q.2 + d))).sum =
      a * c * (p.map (fun q => q.1 * q.2)).sum +
        a * d * (p.map Prod.fst).sum + b * c * (p.map Prod.snd).sum +
        (p.length : ℚ) * (b * d) := by
  induction p with
  | nil => simp
  | cons q t ih =>
    simp only [List.map_cons, List.sum_cons, List.length_cons, ih]
    push_cast
    ring

lemma listVar_affine (l : List ℚ) (a b : ℚ) :
    listVar (l.map (fun x => a * x + b)) = a ^ 2 * listVar l := by
  unfold listVar
  rw [List.map_map]
  simp only [Function.comp_def, List.length_map]
  rw [sum_map_affine, sum_map_affine_sq]
  ring

/-! ### Pearson coefficient lemmas -/

lemma pearson_short (p : List (ℚ × ℚ)) (h : p.length < 2) :
    pearsonOption p = none := by
  match p, h with
  | [], _ => simp [pearsonOption, listVar]
  | [q], _ =>
    have : listVar [q.1] = 0 := by simp [listVar]
    simp [pearsonOption, this]

lemma pearson_swap (p : List (ℚ × ℚ)) :
    pearsonOption (p.map (fun q => (q.2, q.1))) = pearsonOption p := by
  have hfst : (p.map (fun q => (q.2, q.1))).map Prod.fst = p.map Prod.snd := by
    simp [List.map_map]
  have hsnd : (p.map (fun q => (q.2, q.1))).map Prod.snd = p.map Prod.fst := by
    simp [List.map_map]
  have hcov : listCov (p.map (fun q => (q.2, q.1))) = listCov p := by
    unfold listCov
    rw [hfst, hsnd, List.map_map, List.length_map]
    simp only [Function.comp_def]
    rw [show (p.map (fun q => q.2 * q.1)).sum = (p.map (fun q => q.1 * q.2)).sum by
      congr 1
      exact List.map_congr_left (fun q _ => mul_comm _ _)]
    ring
  unfold pearsonOption
  rw [hfst, hsnd, hcov]
  by_cases h : listVar (p.map Prod.fst) = 0 ∨ listVar (p.map Prod.snd) = 0
  · rw [if_pos h.symm, if_pos h]
  · rw [if_neg (fun hc => h hc.symm), if_neg h, mul_comm]

lemma pearson_affine (p : List (ℚ × ℚ)) (a b c d : ℚ) (ha : 0 < a) (hc : 0 < c) :
    pearsonOption (p.map (fun q => (a * q.1 + b, c * q.2 + d))) = pearsonOption p := by
  have hfst : (p.map (fun q => (a * q.1 + b, c * q.2 + d))).map Prod.fst =
      (p.map Prod.fst).map (fun x => a * x + b) := by
    simp [List.map_map, Function.comp_def]
  have hsnd : (p.map (fun q => (a * q.1 + b, c * q.2 + d))).map Prod.snd =
      (p.map Prod.snd).map (fun x => c * x + d) := by
    simp [List.map_map, Function.comp_def]
  have hVx : listVar ((p.map (fun q => (a * q.1 + b, c * q.2 + d))).map Prod.fst) =
      a ^ 2 * listVar (p.map Prod.fst) := by rw [hfst, listVar_affine]
  have hVy : listVar ((p.map (fun q => (a * q.1 + b, c * q.2 + d))).map Prod.snd) =
      c ^ 2 * listVar (p.map Prod.snd) := by rw [hsnd, listVar_affine]
  have hcov : listCov (p.map (fun q => (a * q.1 + b, c * q.2 + d))) =
      a * c * listCov p := by
    unfold listCov
    rw [hfst, hsnd, List.map_map, List.length_map]
    simp only [Function.comp_def]
    rw [sum_map_affine_mul, sum_map_affine, sum_map_affine, List.length_map,
      List.length_map]
    ring
  unfold pearsonOption
  rw [hVx, hVy, hcov]
  have ha2 : (a : ℚ) ^ 2 ≠ 0 := pow_ne_zero _ ha.ne'
  have hc2 : (c : ℚ) ^ 2 ≠ 0 := pow_ne_zero _ hc.ne'
  by_cases h : listVar (p.map Prod.fst) = 0 ∨ listVar (p.map Prod.snd) = 0
  · rw [if_pos, if_pos h]
    rcases h with h | h
    · exact Or.inl (by rw [h, mul_zero])
    · exact Or.inr (by rw [h, mul_zero])
  · push_neg at h
    rw [if_neg, if_neg (by push_neg; exact h)]
    · have hsx : Real.sqrt ((a ^ 2 * listVar (p.map Prod.fst) : ℚ) : ℝ) =
          (a : ℝ) * Real.sqrt ((listVar (p.map Prod.fst) : ℚ) : ℝ) := by
        push_cast
        rw [Real.sqrt_mul (by positivity), Real.sqrt_sq (by exact_mod_cast ha.le)]
      have hsy : Real.sqrt ((c ^ 2 * listVar (p.map Prod.snd) : ℚ) : ℝ) =
          (c : ℝ) * Real.sqrt ((listVar (p.map Prod.snd) : ℚ) : ℝ) := by
        push_cast
        rw [Real.sqrt_mul (by positivity), Real.sqrt_sq (by exact_mod_cast hc.le)]
      rw [hsx, hsy]
      congr 1
      push_cast
      rw [show (a : ℝ) * Real.sqrt _ * ((c : ℝ) * Real.sqrt _) =
          (a : ℝ) * (c : ℝ) * (Real.sqrt ((listVar (p.map Prod.fst) : ℚ) : ℝ) *
            Real.sqrt ((listVar (p.map Prod.snd) : ℚ) : ℝ)) by ring]
      rw [show ((a : ℝ) * (c : ℝ) * (listCov p : ℝ)) =
          ((a : ℝ) * (c : ℝ)) * (listCov p : ℝ) by ring]
      exact mul_div_mul_left _ _ (by positivity)
    · push_neg
      exact ⟨mul_ne_zero ha2 h.1, mul_ne_zero hc2 h.2⟩

lemma pearson_self_of_ne (l : List ℚ) (x y : ℚ) (hx : x ∈ l) (hy : y ∈ l)
    (hxy : x ≠ y) : pearsonOption (l.map (fun v => (v, v))) = some 1 := by
  have hfst : (l.map (fun v => (v, v))).map Prod.fst = l := by
    simp [List.map_map, Function.comp_def]
  have hsnd : (l.map (fun v => (v, v))).map Prod.snd = l := by
    simp [List.map_map, Function.comp_def]
  have hcov : listCov (l.map (fun v => (v, v))) = listVar l := by
    unfold listCov listVar
    rw [hfst, hsnd, List.map_map, List.length_map]
    simp [Function.comp_def]
  have hV : 0 < listVar l := listVar_pos l x y hx hy hxy
  have hVR : (0 : ℝ) < ((listVar l : ℚ) : ℝ) := by exact_mod_cast hV
  unfold pearsonOption
  rw [hfst, hsnd, hcov, if_neg (by push_neg; exact ⟨hV.ne', hV.ne'⟩)]
  rw [Real.mul_self_sqrt hVR.le, div_self hVR.ne']

/-! ### The strictly-ascending-dates invariant -/

lemma datesSorted_chain : ∀ l : List Date, datesSorted l = true → l.Chain' (· < ·)
  | [], _ => List.chain'_nil
  | [a], _ => List.chain'_singleton a
  | a :: b :: t, h => by
    rw [datesSorted, Bool.and_eq_true] at h
    exact List.chain'_cons.mpr
      ⟨of_decide_eq_true h.1, datesSorted_chain (b :: t) h.2⟩

lemma datesSorted_pairwise (l : List Date) (h : datesSorted l = true) :
    l.Pairwise (· < ·) :=
  List.chain'_iff_pairwise.mp (datesSorted_chain l h)

lemma datesSorted_nodup (l : List Date) (h : datesSorted l = true) : l.Nodup :=
  (datesSorted_pairwise l h).imp ne_of_lt

lemma datesSorted_sorted (l : List Date) (h : datesSorted l = true) :
    l.Sorted (· ≤ ·) :=
  (datesSorted_pairwise l h).imp le_of_lt

/-! ### Alignment lemmas -/

lemma sortedNodupExt (l₁ l₂ : List Date) (s₁ : l₁.Sorted (· ≤ ·))
    (s₂ : l₂.Sorted (· ≤ ·)) (n₁ : l₁.Nodup) (n₂ : l₂.Nodup)
    (hm : ∀ x, x ∈ l₁ ↔ x ∈ l₂) : l₁ = l₂ :=
  List.eq_of_perm_of_sorted ((List.perm_ext_iff_of_nodup n₁ n₂).mpr hm) s₁ s₂

lemma mergedDates_sorted (s1 s2 : Series) :
    (mergedDates s1 s2).Sorted (· ≤ ·) :=
  List.sorted_insertionSort _ _

lemma mergedDates_nodup (s1 s2 : Series) : (mergedDates s1 s2).Nodup :=
  (List.perm_insertionSort _ _).nodup_iff.mpr (List.nodup_dedup _)

lemma mem_mergedDates (s1 s2 : Series) (d : Date) :
    d ∈ mergedDates s1 s2 ↔ d ∈ seriesDates s1 ∨ d ∈ seriesDates s2 := by
  unfold mergedDates
  rw [(List.perm_insertionSort _ _).mem_iff, List.mem_dedup, List.mem_append]

lemma seriesLookup_isSome_iff (s : Series) (d : Date) :
    (seriesLookup s d).isSome = true ↔ d ∈ seriesDates s := by
  unfold seriesLookup seriesDates
  rw [Option.isSome_map', List.find?_isSome]
  constructor
  · rintro ⟨p, hp, hpd⟩
    exact List.mem_map.mpr ⟨p, hp, by simpa using hpd⟩
  · rintro hd
    obtain ⟨p, hp, hpd⟩ := List.mem_map.mp hd
    exact ⟨p, hp, by simpa using hpd⟩

lemma seriesLookup_self (s : Series) (h : (seriesDates s).Nodup) :
    ∀ p ∈ s, seriesLookup s p.1 = some p.2 := by
  induction s with
  | nil => intro p hp; simp at hp
  | cons q t ih =>
    intro p hp
    rcases List.mem_cons.mp hp with rfl | hpt
    · unfold seriesLookup
      rw [List.find?_cons_of_pos _ (by simp)]
      rfl
    · have hne : q.1 ≠ p.1 := by
        intro hq
        have : p.1 ∈ seriesDates t := List.mem_map.mpr ⟨p, hpt, rfl⟩
        rw [seriesDates, List.map_cons] at h
        exact (List.nodup_cons.mp h).1 (hq ▸ this)
      unfold seriesLookup
      rw [List.find?_cons_of_neg _ (by simpa using hne)]
      have ht : (seriesDates t).Nodup := by
        rw [seriesDates, List.map_cons] at h
        exact (List.nodup_cons.mp h).2
      exact ih ht p hpt

lemma alignRow_isSome_mem_left (s1 s2 : Series) (d : Date)
    (h : (alignRow s1 s2 d).isSome = true) : d ∈ seriesDates s1 := by
  rw [← seriesLookup_isSome_iff]
  unfold alignRow at h
  cases h1 : seriesLookup s1 d with
  | none => rw [h1] at h; cases h2 : seriesLookup s2 d <;> simp [h1, h2] at h
  | some x => simp

lemma filterMap_filter_isSome {α β : Type} (l : List α) (F : α → Option β) :
    (l.filter (fun d => (F d).isSome)).filterMap F = l.filterMap F := by
  induction l with
  | nil => rfl
  | cons a t ih =>
    cases hFa : F a with
    | none =>
      rw [List.filter_cons, List.filterMap_cons, hFa]
      simp only [hFa, Option.isSome_none, Bool.false_eq_true, if_false]
      exact ih
    | some b =>
      rw [List.filter_cons, List.filterMap_cons, hFa]
      simp only [hFa, Option.isSome_some, if_true, List.filterMap_cons]
      rw [ih]

lemma alignedPairs_eq_innerJoin (s1 s2 : Series)
    (h1 : datesSorted (seriesDates s1) = true) :
    alignedPairs s1 s2 = innerJoin s1 s2 := by
  have hnd : (seriesDates s1).Nodup := datesSorted_nodup _ h1
  have hfilter : (mergedDates s1 s2).filter (fun d => (alignRow s1 s2 d).isSome)
      = (seriesDates s1).filter (fun d => (alignRow s1 s2 d).isSome) := by
    apply sortedNodupExt
    · exact (mergedDates_sorted s1 s2).filter _
    · exact (datesSorted_sorted _ h1).filter _
    · exact (mergedDates_nodup s1 s2).filter _
    · exact hnd.filter _
    · intro x
      rw [List.mem_filter, List.mem_filter, mem_mergedDates]
      constructor
      · rintro ⟨_, hx⟩
        exact ⟨alignRow_isSome_mem_left _ _ _ hx, hx⟩
      · rintro ⟨hx1, hx⟩
        exact ⟨Or.inl hx1, hx⟩
  calc alignedPairs s1 s2
      = ((mergedDates s1 s2).filter
          (fun d => (alignRow s1 s2 d).isSome)).filterMap (alignRow s1 s2) :=
        (filterMap_filter_isSome _ _).symm
    _ = ((seriesDates s1).filter
          (fun d => (alignRow s1 s2 d).isSome)).filterMap (alignRow s1 s2) := by
        rw [hfilter]
    _ = (seriesDates s1).filterMap (alignRow s1 s2) :=
        filterMap_filter_isSome _ _
    _ = s1.filterMap (alignRow s1 s2 ∘ Prod.fst) := by
        rw [seriesDates, List.filterMap_map]
    _ = innerJoin s1 s2 := by
        apply List.filterMap_congr
        intro p hp
        have hlk : seriesLookup s1 p.1 = some p.2 := seriesLookup_self s1 hnd p hp
        simp only [Function.comp_apply, alignRow, hlk]
        cases seriesLookup s2 p.1 <;> rfl

lemma mergedDates_comm (s1 s2 : Series) : mergedDates s1 s2 = mergedDates s2 s1 :=
  sortedNodupExt _ _ (mergedDates_sorted s1 s2) (mergedDates_sorted s2 s1)
    (mergedDates_nodup s1 s2) (mergedDates_nodup s2 s1)
    (fun x => by rw [mem_mergedDates, mem_mergedDates]; exact or_comm)

lemma alignRow_swap (s1 s2 : Series) (d : Date) :
    alignRow s1 s2 d = (alignRow s2 s1 d).map (fun q => (q.2, q.1)) := by
  unfold alignRow
  cases seriesLookup s1 d <;> cases seriesLookup s2 d <;> rfl

lemma alignedPairs_swap (s1 s2 : Series) :
    alignedPairs s1 s2 = (alignedPairs s2 s1).map (fun q => (q.2, q.1)) := by
  unfold alignedPairs
  rw [mergedDates_comm, List.map_filterMap]
  exact List.filterMap_congr (fun d _ => alignRow_swap s1 s2 d)

lemma mergedDates_self (s : Series) (h : datesSorted (seriesDates s) = true) :
    mergedDates s s = seriesDates s :=
  sortedNodupExt _ _ (mergedDates_sorted s s) (datesSorted_sorted _ h)
    (mergedDates_nodup s s) (datesSorted_nodup _ h)
    (fun x => by rw [mem_mergedDates]; exact or_self_iff)

lemma alignedPairs_self (s : Series) (h : datesSorted (seriesDates s) = true) :
    alignedPairs s s = (s.map Prod.snd).map (fun v => (v, v)) := by
  have hnd := datesSorted_nodup _ h
  unfold alignedPairs
  rw [mergedDates_self s h, seriesDates, List.filterMap_map, List.map_map]
  rw [← List.filterMap_eq_map ((fun v : ℚ => (v, v)) ∘ Prod.snd)]
  apply List.filterMap_congr
  intro p hp
  have hlk := seriesLookup_self s hnd p hp
  simp only [Function.comp_apply, alignRow, hlk]

lemma seriesDates_map_value (s : Series) (g : ℚ → ℚ) :
    seriesDates (s.map (fun q => (q.1, g q.2))) = seriesDates s := by
  unfold seriesDates
  rw [List.map_map]
  rfl

lemma seriesLookup_map_value (s : Series) (g : ℚ → ℚ) (d : Date) :
    seriesLookup (s.map (fun q => (q.1, g q.2))) d = (seriesLookup s d).map g := by
  unfold seriesLookup
  rw [List.find?_map]
  rw [show ((fun p : Date × ℚ => p.1 == d) ∘ (fun q : Date × ℚ => (q.1, g q.2))) =
    (fun q : Date × ℚ => q.1 == d) from rfl]
  cases s.find? (fun q : Date × ℚ => q.1 == d) <;> rfl

lemma seriesDates_normalize (s : Series) (c : ℚ) :
    seriesDates (s.map (fun q => (q.1, q.2 / c * 100 - 100))) = seriesDates s :=
  seriesDates_map_value s (fun x => x / c * 100 - 100)

lemma seriesLookup_normalize (s : Series) (c : ℚ) (d : Date) :
    seriesLookup (s.map (fun q => (q.1, q.2 / c * 100 - 100))) d =
      (seriesLookup s d).map (fun x => x / c * 100 - 100) :=
  seriesLookup_map_value s (fun x => x / c * 100 - 100) d

lemma div_sqrt_scale (n A B C : ℝ) (hn : 0 < n) :
    (n * C) / (Real.sqrt (n * A) * Real.sqrt (n * B)) =
      C / (Real.sqrt A * Real.sqrt B) := by
  rw [Real.sqrt_mul hn.le, Real.sqrt_mul hn.le,
    show Real.sqrt n * Real.sqrt A * (Real.sqrt n * Real.sqrt B) =
      Real.sqrt n * Real.sqrt n * (Real.sqrt A * Real.sqrt B) by ring,
    Real.mul_self_sqrt hn.le]
  exact mul_div_mul_left _ _ hn.ne'

lemma pearson_eq_spec (p : List (ℚ × ℚ)) : pearsonOption p = pearsonSpec p := by
  rcases eq_or_ne p [] with rfl | hp
  · simp [pearsonOption, pearsonSpec, listVar]
  · have hlen : 0 < p.length := List.length_pos.mpr hp
    have hn : (p.length : ℚ) ≠ 0 := by exact_mod_cast hlen.ne'
    have hxs : p.map Prod.fst ≠ [] := by simpa using hp
    have hys : p.map Prod.snd ≠ [] := by simpa using hp
    unfold pearsonOption pearsonSpec
    simp only [List.length_map]
    have hVx : listVar (p.map Prod.fst) =
        (p.length : ℚ) * ((p.map Prod.fst).map
          (fun x => (x - (p.map Prod.fst).sum / (p.length : ℚ)) *
            (x - (p.map Prod.fst).sum / (p.length : ℚ)))).sum := by
      simpa [List.length_map] using listVar_eq_centered (p.map Prod.fst) hxs
    have hVy : listVar (p.map Prod.snd) =
        (p.length : ℚ) * ((p.map Prod.snd).map
          (fun y => (y - (p.map Prod.snd).sum / (p.length : ℚ)) *
            (y - (p.map Prod.snd).sum / (p.length : ℚ)))).sum := by
      simpa [List.length_map] using listVar_eq_centered (p.map Prod.snd) hys
    have hCov : listCov p =
        (p.length : ℚ) * (p.map
          (fun q => (q.1 - (p.map Prod.fst).sum / (p.length : ℚ)) *
            (q.2 - (p.map Prod.snd).sum / (p.length : ℚ)))).sum := by
      rw [sum_map_mul_sub, listCov]
      field_simp
      ring
    rw [hVx, hVy, hCov]
    by_cases h : ((p.map Prod.fst).map
          (fun x => (x - (p.map Prod.fst).sum / (p.length : ℚ)) *
            (x - (p.map Prod.fst).sum / (p.length : ℚ)))).sum = 0 ∨
        ((p.map Prod.snd).map
          (fun y => (y - (p.map Prod.snd).sum / (p.length : ℚ)) *
            (y - (p.map Prod.snd).sum / (p.length : ℚ)))).sum = 0
    · rw [if_pos, if_pos h]
      rcases h with h | h
      · exact Or.inl (by rw [h, mul_zero])
      · exact Or.inr (by rw [h, mul_zero])
    · push_neg at h
      rw [if_neg, if_neg (by push_neg; exact h)]
      · have hnR : (0 : ℝ) < (p.length : ℝ) := by exact_mod_cast hlen
        congr 1
        push_cast
        exact div_sqrt_scale _ _ _ _ hnR
      · push_neg
        exact ⟨mul_ne_zero hn h.1, mul_ne_zero hn h.2⟩

/-! ### Claim theorems -/

/-- C1: for every non-empty price series `s` whose first value `s0` is nonzero,
`normalize_data` succeeds, preserves length and dates, maps the `i`-th value to
`(s[i]/s0)*100 - 100`, sends the first value to `0`, and on prices
`[100, 110, 121]` yields `[0, 10, 21]`. -/
theorem normalize_data_correct :
    (∀ (s : Series) (p : Date × ℚ) (t : Series), s = p :: t → p.2 ≠ 0 →
      ∃ ns, normalize_data s = some ns ∧ ns.length = s.length ∧
        (∀ (i : ℕ) (x : Date × ℚ), s[i]? = some x →
          ns[i]? = some (x.1, x.2 / p.2 * 100 - 100)) ∧
        ns[0]? = some (p.1, 0)) ∧
    normalize_data [(1, 100), (2, 110), (3, 121)] =
      some [(1, 0), (2, 10), (3, 21)] := by
  constructor
  · rintro s p t rfl h0
    refine ⟨(p :: t).map (fun q => (q.1, q.2 / p.2 * 100 - 100)), ?_, by simp,
      ?_, ?_⟩
    · rfl
    · intro i x hx
      rw [List.getElem?_map, hx]
      rfl
    · simp [div_self h0]
  · show some _ = some _
    norm_num [normalize_data]

theorem normalize_data_correct_witness :
    ∃ ns, normalize_data [((1 : Date), (100 : ℚ)), (2, 110), (3, 121)] = some ns ∧
      ns.length = ([((1 : Date), (100 : ℚ)), (2, 110), (3, 121)] : Series).length ∧
      (∀ (i : ℕ) (x : Date × ℚ),
        ([((1 : Date), (100 : ℚ)), (2, 110), (3, 121)] : Series)[i]? = some x →
          ns[i]? = some (x.1, x.2 / 100 * 100 - 100)) ∧
      ns[0]? = some (1, 0) :=
  normalize_data_correct.1 _ ((1 : Date), (100 : ℚ)) [(2, 110), (3, 121)] rfl
    (by decide)

/-- C2: on price series with strictly ascending date indexes,
`calculate_correlation` equals the spec-side pipeline: restrict both series to
the dates present in both (inner join) and take the textbook Pearson
correlation coefficient of the aligned value pairs. -/
theorem calculate_correlation_is_innerJoin_pearson (s1 s2 : Series)
    (h1 : datesSorted (seriesDates s1) = true)
    (h2 : datesSorted (seriesDates s2) = true) :
    calculate_correlation s1 s2 = pearsonSpec (innerJoin s1 s2) := by
  unfold calculate_correlation
  rw [alignedPairs_eq_innerJoin s1 s2 h1, pearson_eq_spec]

theorem calculate_correlation_is_innerJoin_pearson_witness :
    calculate_correlation [((1 : Date), (1 : ℚ)), (2, 2)]
        [((1 : Date), (3 : ℚ)), (3, 4)] =
      pearsonSpec (innerJoin [((1 : Date), (1 : ℚ)), (2, 2)]
        [((1 : Date), (3 : ℚ)), (3, 4)]) :=
  calculate_correlation_is_innerJoin_pearson _ _ (by decide) (by decide)

/-- C3: `calculate_correlation` is symmetric in its two arguments. -/
theorem calculate_correlation_symm (s1 s2 : Series) :
    calculate_correlation s1 s2 = calculate_correlation s2 s1 := by
  unfold calculate_correlation
  rw [alignedPairs_swap s1 s2, pearson_swap]

/-- C4: when fewer than 2 aligned points remain after the inner-join
alignment, `calculate_correlation` is the undefined (`NaN`) outcome, never a
runtime fault (the function is total). -/
theorem calculate_correlation_insufficient_overlap (s1 s2 : Series)
    (h : (alignedPairs s1 s2).length < 2) :
    calculate_correlation s1 s2 = none :=
  pearson_short _ h

theorem calculate_correlation_insufficient_overlap_witness :
    (alignedPairs [((1 : Date), (1 : ℚ))] [((2 : Date), (1 : ℚ))]).length < 2 ∧
      calculate_correlation [((1 : Date), (1 : ℚ))] [((2 : Date), (1 : ℚ))] = none :=
  ⟨by decide, calculate_correlation_insufficient_overlap _ _ (by decide)⟩

/-- C5 counterexample: `normalize_data` on a zero-length series does fail
(`iloc[0]` raises, modelled `none`), but nothing surfaces it as a message:
an empty fetched series passes the `is not None` guard of `main` and the
run crashes, contradicting "surfaced … rather than crashing". -/
theorem normalize_empty_counterexample :
    normalize_data ([] : Series) = none ∧
      mainRender (some [((1 : Date), (1 : ℚ))]) (some ([] : Series)) =
        RenderOutcome.crashed :=
  ⟨rfl, rfl⟩

/-- C5 amended: normalization of a zero-length series raises (modelled as
`none`), and `main` does not catch it — any run whose fetched series is empty
crashes instead of showing a "no data for this selection" message. -/
theorem normalize_empty_raises (d : Series) (hd : d ≠ []) :
    normalize_data ([] : Series) = none ∧
      mainRender (some d) (some ([] : Series)) = RenderOutcome.crashed := by
  obtain ⟨p, t, rfl⟩ : ∃ p t, d = p :: t := by
    cases d with
    | nil => exact absurd rfl hd
    | cons p t => exact ⟨p, t, rfl⟩
  exact ⟨rfl, rfl⟩

theorem normalize_empty_raises_witness :
    normalize_data ([] : Series) = none ∧
      mainRender (some [((1 : Date), (1 : ℚ))]) (some ([] : Series)) =
        RenderOutcome.crashed :=
  normalize_empty_raises [((1 : Date), (1 : ℚ))] (by decide)

/-- C6 counterexample: when the fetch for symbol B is absent (`None`), `main`
renders nothing at all — the metrics of symbol A are omitted, with no "no data"
indicator; when the fetch for B is an empty series, the run crashes. -/
theorem main_no_partial_render_counterexample :
    mainRender (some [((1 : Date), (100 : ℚ)), (2, 110)]) none =
        RenderOutcome.nothingRendered ∧
      mainRender (some [((1 : Date), (100 : ℚ)), (2, 110)]) (some ([] : Series)) =
        RenderOutcome.crashed :=
  ⟨rfl, rfl⟩

/-- C6 amended: whenever either fetch result is absent, the orchestrator
renders nothing further (the metrics of the successful symbol are omitted, no
"no data" indicator exists); whenever either fetch result is an empty series,
the run crashes in `normalize_data`. -/
theorem main_empty_side_renders_nothing (d : Series) :
    mainRender (some d) none = RenderOutcome.nothingRendered ∧
      mainRender none (some d) = RenderOutcome.nothingRendered ∧
      (d ≠ [] →
        mainRender (some d) (some ([] : Series)) = RenderOutcome.crashed ∧
          mainRender (some ([] : Series)) (some d) = RenderOutcome.crashed) := by
  refine ⟨rfl, rfl, fun hd => ?_⟩
  obtain ⟨p, t, rfl⟩ : ∃ p t, d = p :: t := by
    cases d with
    | nil => exact absurd rfl hd
    | cons p t => exact ⟨p, t, rfl⟩
  exact ⟨rfl, rfl⟩

theorem main_empty_side_renders_nothing_witness :
    mainRender (some [((1 : Date), (1 : ℚ))]) none =
        RenderOutcome.nothingRendered ∧
      mainRender none (some [((1 : Date), (1 : ℚ))]) =
        RenderOutcome.nothingRendered ∧
      (([((1 : Date), (1 : ℚ))] : Series) ≠ [] →
        mainRender (some [((1 : Date), (1 : ℚ))]) (some ([] : Series)) =
            RenderOutcome.crashed ∧
          mainRender (some ([] : Series)) (some [((1 : Date), (1 : ℚ))]) =
            RenderOutcome.crashed) :=
  main_empty_side_renders_nothing [((1 : Date), (1 : ℚ))]

/-- C7 counterexample: with start date 5 strictly after end date 3 the fetcher
still performs its provider call (one download round-trip), so no validation
happens before I/O. -/
theorem fetch_no_validation_counterexample :
    (3 : Date) < 5 ∧
      (fetch_historical_data (fun _ _ _ => Except.ok []) "SPY" 5 3).2 = 1 :=
  ⟨by decide, rfl⟩

/-- C7 amended: `fetch_historical_data` performs exactly one provider call for
every input — including a start date after the end date; there is no local
date validation, and a provider error is converted to `None`. -/
theorem fetch_always_calls_provider
    (download : String → Date → Date → Except String Series)
    (ticker : String) (s e : Date) :
    (fetch_historical_data download ticker s e).2 = 1 := by
  unfold fetch_historical_data
  cases download ticker s e <;> rfl

/-- C8: multiplying every price of a non-empty series by a positive constant
leaves the normalized series unchanged. -/
theorem normalize_scale_invariant (s : Series) (k : ℚ) (p : Date × ℚ)
    (t : Series) (hs : s = p :: t) (hk : 0 < k) :
    normalize_data (scaleSeries s k) = normalize_data s := by
  subst hs
  rw [show scaleSeries (p :: t) k = (p.1, k * p.2) :: scaleSeries t k from rfl]
  simp only [normalize_data]
  rw [show (p.1, k * p.2) :: scaleSeries t k =
    (p :: t).map (fun q => (q.1, k * q.2)) from rfl]
  rw [List.map_map]
  congr 1
  apply List.map_congr_left
  intro q _
  simp only [Function.comp_apply]
  rw [mul_div_mul_left _ _ hk.ne']

theorem normalize_scale_invariant_witness :
    normalize_data (scaleSeries [((1 : Date), (2 : ℚ))] 2) =
      normalize_data [((1 : Date), (2 : ℚ))] :=
  normalize_scale_invariant _ 2 ((1 : Date), (2 : ℚ)) [] rfl (by decide)

/-- C9: for a price series with strictly ascending dates, at least 2 points
and at least 2 distinct values, the self-correlation is exactly 1. -/
theorem calculate_correlation_self (a : Series)
    (hsort : datesSorted (seriesDates a) = true) (hlen : 2 ≤ a.length)
    (x y : ℚ) (hx : x ∈ a.map Prod.snd) (hy : y ∈ a.map Prod.snd)
    (hxy : x ≠ y) :
    calculate_correlation a a = some 1 := by
  unfold calculate_correlation
  rw [alignedPairs_self a hsort]
  exact pearson_self_of_ne _ x y hx hy hxy

theorem calculate_correlation_self_witness :
    calculate_correlation [((1 : Date), (1 : ℚ)), (2, 2)]
      [((1 : Date), (1 : ℚ)), (2, 2)] = some 1 :=
  calculate_correlation_self _ (by decide) (by decide) 1 2 (by decide)
    (by decide) (by decide)

/-- C10: for raw series with positive first values, at least 2 aligned points
and non-constant aligned values, the correlation the pipeline reports —
`calculate_correlation` on the two normalized series — equals the Pearson
correlation of the raw series, because normalization is a per-series positive
affine map. -/
theorem pipeline_correlation_eq_raw (a b na nb : Series)
    (hna : normalize_data a = some na) (hnb : normalize_data b = some nb)
    (pa : Date × ℚ) (ta : Series) (hao : a = pa :: ta) (hpa : 0 < pa.2)
    (pb : Date × ℚ) (tb : Series) (hbo : b = pb :: tb) (hpb : 0 < pb.2)
    (hlen : 2 ≤ (alignedPairs a b).length)
    (hncx : ∃ u ∈ alignedPairs a b, ∃ v ∈ alignedPairs a b, u.1 ≠ v.1)
    (hncy : ∃ u ∈ alignedPairs a b, ∃ v ∈ alignedPairs a b, u.2 ≠ v.2) :
    calculate_correlation na nb = calculate_correlation a b := by
  subst hao hbo
  have hna' : na = (pa :: ta).map (fun q => (q.1, q.2 / pa.2 * 100 - 100)) := by
    simpa [normalize_data] using hna.symm
  have hnb' : nb = (pb :: tb).map (fun q => (q.1, q.2 / pb.2 * 100 - 100)) := by
    simpa [normalize_data] using hnb.symm
  subst hna' hnb'
  have hmd : mergedDates
      ((pa :: ta).map (fun q => (q.1, q.2 / pa.2 * 100 - 100)))
      ((pb :: tb).map (fun q => (q.1, q.2 / pb.2 * 100 - 100))) =
      mergedDates (pa :: ta) (pb :: tb) := by
    unfold mergedDates
    rw [seriesDates_normalize, seriesDates_normalize]
  have hrow : ∀ d, alignRow
      ((pa :: ta).map (fun q => (q.1, q.2 / pa.2 * 100 - 100)))
      ((pb :: tb).map (fun q => (q.1, q.2 / pb.2 * 100 - 100))) d =
      (alignRow (pa :: ta) (pb :: tb) d).map
        (fun q => (q.1 / pa.2 * 100 - 100, q.2 / pb.2 * 100 - 100)) := by
    intro d
    unfold alignRow
    rw [seriesLookup_normalize, seriesLookup_normalize]
    cases seriesLookup (pa :: ta) d <;> cases seriesLookup (pb :: tb) d <;> rfl
  have hap : alignedPairs
      ((pa :: ta).map (fun q => (q.1, q.2 / pa.2 * 100 - 100)))
      ((pb :: tb).map (fun q => (q.1, q.2 / pb.2 * 100 - 100))) =
      (alignedPairs (pa :: ta) (pb :: tb)).map
        (fun q => (q.1 / pa.2 * 100 - 100, q.2 / pb.2 * 100 - 100)) := by
    unfold alignedPairs
    rw [hmd, List.map_filterMap]
    exact List.filterMap_congr (fun d _ => hrow d)
  unfold calculate_correlation
  rw [hap]
  rw [show (alignedPairs (pa :: ta) (pb :: tb)).map
      (fun q => (q.1 / pa.2 * 100 - 100, q.2 / pb.2 * 100 - 100)) =
    (alignedPairs (pa :: ta) (pb :: tb)).map
      (fun q => (100 / pa.2 * q.1 + (-100), 100 / pb.2 * q.2 + (-100))) from
    List.map_congr_left (fun q _ => by
      refine Prod.ext ?_ ?_ <;> simp only [] <;> ring)]
  exact pearson_affine _ _ _ _ _ (div_pos (by norm_num) hpa)
    (div_pos (by norm_num) hpb)

theorem pipeline_correlation_eq_raw_witness :
    calculate_correlation
      ([((1 : Date), (1 : ℚ)), (2, 2)].map
        (fun q => (q.1, q.2 / 1 * 100 - 100)))
      ([((1 : Date), (2 : ℚ)), (2, 1)].map
        (fun q => (q.1, q.2 / 2 * 100 - 100))) =
    calculate_correlation [((1 : Date), (1 : ℚ)), (2, 2)]
      [((1 : Date), (2 : ℚ)), (2, 1)] :=
  pipeline_correlation_eq_raw _ _ _ _ rfl rfl _ _ rfl (by decide) _ _ rfl
    (by decide) (by decide) (by decide) (by decide)
